import Mathlib

/-!
# Verification of the My-Dictionary spaced-repetition core

A shallow embedding of the review-scheduling engine (`src/srs.ts`), the
session builder and session runtime (`src/App.tsx`), and the import logic
of the vocabulary-builder application, together with proofs of the
specification's claims about them.

Conventions of the embedding:
* Timestamps (JS `Date` values / ISO strings) are modelled as `Int`
  milliseconds since the epoch; `null` timestamps are `Option.none`.
* JS floating-point numbers holding the ease factor are modelled as exact
  rationals (`Rat`); `Math.round` is Mathlib's `round` (`⌊x + 1/2⌋`, the
  half-up rounding that `Math.round` implements).
* Randomness (`Math.random`-derived draws) is modelled by explicit draw
  parameters ranging over the same support as in the code.
-/

namespace MyDictionary

/-- `WordStatus` from `types.ts`: `"new" | "in_progress" | "completed"`. -/
inductive WordStatus where
  | new
  | in_progress
  | completed
deriving DecidableEq, Repr

/-- `Rating` from `types.ts`: `"again" | "hard" | "good" | "easy"`. -/
inductive Rating where
  | again
  | hard
  | good
  | easy
deriving DecidableEq, Repr

/-- `WordEntry` from `types.ts`.  String timestamps (`createdAt`,
`updatedAt`, `dueAt`, `lastReviewedAt`) are modelled as `Int` milliseconds;
the nullable ones as `Option Int`. -/
structure WordEntry where
  id : String
  topicId : String
  wordOrPhrase : String
  transcription : String
  meaningEn : String
  exampleUsage : String
  translationUk : String
  tags : List String
  status : WordStatus
  createdAt : Int
  updatedAt : Int
  dueAt : Option Int
  intervalDays : Int
  ease : Rat
  reps : Nat
  lapses : Nat
  rightCount : Nat
  wrongCount : Nat
  skipCount : Nat
  lastReviewedAt : Option Int
deriving DecidableEq, Repr

/-- `const MIN_EASE = 1.3` from `srs.ts`. -/
def MIN_EASE : Rat := 1.3

/-- `addDays` from `srs.ts`: `new Date(now.getTime() + days * 24*60*60*1000)`. -/
def addDays (now : Int) (days : Int) : Int :=
  now + days * (24 * 60 * 60 * 1000)

/-- `resolveStatus` from `srs.ts`.  Note that `applyRating` calls it on the
numerically updated word whose `status` field still holds the pre-update
status. -/
def resolveStatus (word : WordEntry) (rating : Rating) : WordStatus :=
  if word.status = .completed ∧ rating = .again then
    .in_progress
  else if word.reps ≥ 5 ∧ word.intervalDays ≥ 21 then
    .completed
  else if word.status = .new then
    .in_progress
  else
    word.status

/-- `applyRating` from `srs.ts`.  The source updates a copy `updated` of
`word` through a chain of `if (rating === …)` blocks that are mutually
exclusive, so they are rendered as a single `match`; each branch performs
the same field updates in the same order as the source.  `Math.round` is
`round` on `Rat` and the `dueAt` ISO strings are the underlying instants. -/
def applyRating (word : WordEntry) (rating : Rating) (now : Int) : WordEntry :=
  let updated := { word with lastReviewedAt := some now }
  let updated :=
    match rating with
    | .again =>
        { updated with
          reps := 0
          lapses := updated.lapses + 1
          ease := max MIN_EASE (updated.ease - 0.2)
          intervalDays := 0
          dueAt := some (now + 10 * 60 * 1000) }
    | .hard =>
        let iv : Int := max 1 (round ((updated.intervalDays : Rat) * 1.2))
        { updated with
          ease := max MIN_EASE (updated.ease - 0.05)
          intervalDays := iv
          dueAt := some (addDays now iv)
          reps := updated.reps + 1 }
    | .good =>
        let iv : Int :=
          if updated.reps = 0 then 1
          else if updated.reps = 1 then 3
          else round ((updated.intervalDays : Rat) * updated.ease)
        { updated with
          intervalDays := iv
          dueAt := some (addDays now iv)
          reps := updated.reps + 1 }
    | .easy =>
        let newEase := updated.ease + 0.1
        let iv : Int := max 4 (round ((updated.intervalDays : Rat) * newEase * 1.3))
        { updated with
          ease := newEase
          intervalDays := iv
          dueAt := some (addDays now iv)
          reps := updated.reps + 1 }
  let updated := { updated with updatedAt := now }
  { updated with status := resolveStatus updated rating }

/-- `isDue` from `srs.ts`: due when `dueAt` is absent or `dueAt ≤ now`. -/
def isDue (word : WordEntry) (now : Int) : Bool :=
  match word.dueAt with
  | none => true
  | some d => d ≤ now

/-- Concrete `WordEntry` builder used for evaluating the model on sample
inputs; text fields and reporting counters are fixed to defaults. -/
def mkWord (id : String) (status : WordStatus) (dueAt : Option Int)
    (intervalDays : Int) (ease : Rat) (reps lapses : Nat) : WordEntry where
  id := id
  topicId := "topic"
  wordOrPhrase := "word"
  transcription := ""
  meaningEn := "meaning"
  exampleUsage := ""
  translationUk := ""
  tags := []
  status := status
  createdAt := 0
  updatedAt := 0
  dueAt := dueAt
  intervalDays := intervalDays
  ease := ease
  reps := reps
  lapses := lapses
  rightCount := 0
  wrongCount := 0
  skipCount := 0
  lastReviewedAt := none

/-- `TrainingMode` from `types.ts`. -/
inductive TrainingMode where
  | flashcards
  | fill_blank
  | spelling
  | sentence
deriving DecidableEq, Repr

/-- The `origin` tag of a `SessionItem` in `App.tsx`:
`"due" | "in_progress" | "new"`. -/
inductive SessionOrigin where
  | due
  | in_progress
  | new
deriving DecidableEq, Repr

/-- `SessionItem` from `App.tsx`. -/
structure SessionItem where
  id : String
  mode : TrainingMode
  origin : SessionOrigin
deriving DecidableEq, Repr

/-- `SessionStats` from `types.ts`. -/
structure SessionStats where
  total : Nat
  answered : Nat
  correct : Nat
  dueDone : Nat
  newIntroduced : Nat
  movedCompleted : Nat
  lapses : Nat
  startedAt : Int
  finishedAt : Option Int
deriving DecidableEq, Repr

/-- The session-relevant React state of the `App` component: the word
collection, the queue with current index, the running stats, the
per-session attempt counts (`Record<string, number>`, modelled as an
association list where the most recent entry for a key wins, matching the
object-spread update `{ ...prev, [id]: n }`) and the seen-word set. -/
structure SessionState where
  words : List WordEntry
  sessionQueue : List SessionItem
  sessionIndex : Nat
  sessionStats : SessionStats
  sessionAttempts : List (String × Nat)
  sessionSeen : List String
deriving DecidableEq, Repr

/-- `currentItem` from `App.tsx`: `sessionQueue[sessionIndex] ?? null`. -/
def currentItem (st : SessionState) : Option SessionItem :=
  st.sessionQueue[st.sessionIndex]?

/-- The lookup `words.find((w) => w.id === item.id) ?? null` used by
`currentWord` in `App.tsx`. -/
def findWord (words : List WordEntry) (id : String) : Option WordEntry :=
  words.find? (fun w => w.id == id)

/-- `currentWord` from `App.tsx`. -/
def currentWord (st : SessionState) : Option WordEntry :=
  match currentItem st with
  | none => none
  | some item => findWord st.words item.id

/-- `advanceSession` from `App.tsx`.  `queueLen` is the length of the
`sessionQueue` captured by the closure at the start of `handleRating`:
when `handleRating` reinserts an item it calls `advanceSession` in the
same render, so the exhaustion check still sees the pre-insertion queue.
On exhaustion `finishedAt` is stamped and the index is left unchanged;
otherwise the index advances (the per-card UI reset does not touch any
field modelled here). -/
def advanceSession (queueLen : Nat) (st : SessionState) (now : Int) : SessionState :=
  let nextIndex := st.sessionIndex + 1
  if queueLen ≤ nextIndex then
    { st with sessionStats := { st.sessionStats with finishedAt := some now } }
  else
    { st with sessionIndex := nextIndex }

/-- The word update performed by `handleRating` in `App.tsx` before
persisting: the Rating Engine result, the `rightCount`/`wrongCount`/
`skipCount` adjustments, the completed-rated-again demotion and the
new-introduction promotion, in source order. -/
def updatedWordAfterRating (word : WordEntry) (rating : Rating)
    (manualAnswer : Option String) (now : Int) (isNewIntro : Bool) : WordEntry :=
  let updatedBase := applyRating word rating now
  let updated :=
    { updatedBase with
      rightCount := if rating = .again then word.rightCount else word.rightCount + 1
      wrongCount := if rating = .again then word.wrongCount + 1 else word.wrongCount
      skipCount :=
        if rating = .again ∧ manualAnswer = some "skip" then word.skipCount + 1
        else word.skipCount }
  let updated :=
    if rating = .again ∧ word.status = .completed then
      { updated with status := .in_progress }
    else updated
  if isNewIntro then { updated with status := .in_progress } else updated

/-- The sequence of `setSessionStats` updates performed by `handleRating`
in `App.tsx`, in source order: lapse count, moved-to-completed count,
new-introduction count, due-done count, then answered/correct. -/
def updatedStatsAfterRating (stats : SessionStats) (rating : Rating)
    (updated word : WordEntry) (origin : SessionOrigin) (isNewIntro : Bool) : SessionStats :=
  let stats :=
    if rating = .again then { stats with lapses := stats.lapses + 1 } else stats
  let stats :=
    if updated.status = .completed ∧ word.status ≠ .completed then
      { stats with movedCompleted := stats.movedCompleted + 1 }
    else stats
  let stats :=
    if isNewIntro then { stats with newIntroduced := stats.newIntroduced + 1 } else stats
  let stats :=
    if origin = .due then { stats with dueDone := stats.dueDone + 1 } else stats
  let accuracyIncrement : Nat := if rating = .again then 0 else 1
  { stats with answered := stats.answered + 1, correct := stats.correct + accuracyIncrement }

/-- `handleRating` from `App.tsx`.  `offsetDraw` models
`Math.floor(Math.random() * 3)`, the draw used for the reinsertion offset
`5 + offsetDraw`.  The `notify`/`putWord` calls and the per-card UI state
have no effect on the fields modelled here; everything else follows the
source line by line. -/
def handleRating (st : SessionState) (rating : Rating) (manualAnswer : Option String)
    (now : Int) (offsetDraw : Fin 3) : SessionState :=
  match currentItem st, currentWord st with
  | some item, some word =>
      let alreadySeen := st.sessionSeen.contains word.id
      let isNewIntro := word.status == .new && !alreadySeen
      let updated := updatedWordAfterRating word rating manualAnswer now isNewIntro
      let stats :=
        updatedStatsAfterRating st.sessionStats rating updated word item.origin isNewIntro
      let words1 := st.words.map (fun w => if w.id == updated.id then updated else w)
      let seen1 := word.id :: st.sessionSeen
      if rating = .again then
        let attempts := (st.sessionAttempts.lookup word.id).getD 0 + 1
        let attempts1 := (word.id, attempts) :: st.sessionAttempts
        if attempts ≥ 3 then
          let postponed :=
            { updated with dueAt := some (now + 24 * 60 * 60 * 1000), updatedAt := now }
          let words2 := words1.map (fun w => if w.id == postponed.id then postponed else w)
          advanceSession st.sessionQueue.length
            { st with
              words := words2
              sessionStats := stats
              sessionAttempts := attempts1
              sessionSeen := seen1 } now
        else
          let offset := 5 + (offsetDraw : Nat)
          let insertAt := min st.sessionQueue.length (st.sessionIndex + offset)
          let queue1 := st.sessionQueue.insertIdx insertAt item
          advanceSession st.sessionQueue.length
            { st with
              words := words1
              sessionQueue := queue1
              sessionStats := stats
              sessionAttempts := attempts1
              sessionSeen := seen1 } now
      else
        advanceSession st.sessionQueue.length
          { st with
            words := words1
            sessionStats := stats
            sessionSeen := seen1 } now
  | _, _ => st

/-! ## Session Builder (`buildSession` in `App.tsx`) -/

/-- The `mode` field of `SessionConfig`: `"mixed"` or a fixed mode. -/
inductive ConfigMode where
  | mixed
  | fixed (mode : TrainingMode)
deriving DecidableEq, Repr

/-- `SessionConfig` from `types.ts`; `topicId` uses the `"all"` sentinel
exactly as the source does. -/
structure SessionConfig where
  size : Nat
  mode : ConfigMode
  topicId : String
  tags : List String
deriving DecidableEq, Repr

/-- The topic/tag filter at the top of `buildSession`. -/
def filterPool (words : List WordEntry) (config : SessionConfig) : List WordEntry :=
  words.filter (fun word =>
    if config.topicId ≠ "all" ∧ word.topicId ≠ config.topicId then false
    else if config.tags ≠ [] ∧ ¬ (config.tags.any (fun tag => word.tags.contains tag)) then false
    else true)

/-- `due` bucket of `buildSession`: `status !== "new" && isDue`. -/
def dueBucket (words : List WordEntry) (config : SessionConfig) (now : Int) : List WordEntry :=
  (filterPool words config).filter (fun w => !(w.status == .new) && isDue w now)

/-- `inProgress` bucket of `buildSession`: `status === "in_progress" && !isDue`. -/
def inProgressBucket (words : List WordEntry) (config : SessionConfig) (now : Int) :
    List WordEntry :=
  (filterPool words config).filter (fun w => (w.status == .in_progress) && !(isDue w now))

/-- `newWords` bucket of `buildSession`: `status === "new"`. -/
def newBucket (words : List WordEntry) (config : SessionConfig) (now : Int) : List WordEntry :=
  (filterPool words config).filter (fun w => w.status == .new)

/-- `dueSorted`: ascending by `dueAt` with a missing `dueAt` read as time 0,
matching `a.dueAt ? new Date(a.dueAt).getTime() : 0`.  The source uses the
engine's stable `Array.prototype.sort`; `mergeSort` is the stable sort. -/
def dueSorted (words : List WordEntry) (config : SessionConfig) (now : Int) : List WordEntry :=
  (dueBucket words config now).mergeSort
    (fun a b => decide (a.dueAt.getD 0 ≤ b.dueAt.getD 0))

/-- `inProgressSorted`: descending by `lapses + wrongCount`. -/
def inProgressSorted (words : List WordEntry) (config : SessionConfig) (now : Int) :
    List WordEntry :=
  (inProgressBucket words config now).mergeSort
    (fun a b => decide (b.lapses + b.wrongCount ≤ a.lapses + a.wrongCount))

/-- `dueTarget = Math.min(size, Math.round(size * 0.6))`; the rounded value
is non-negative, so `Int.toNat` is exact. -/
def dueTargetOf (size : Nat) : Nat :=
  min size (round ((size : Rat) * 0.6)).toNat

/-- `inProgressTarget = Math.min(size - dueTarget, Math.round(size * 0.25))`. -/
def inProgressTargetOf (size : Nat) : Nat :=
  min (size - dueTargetOf size) (round ((size : Rat) * 0.25)).toNat

/-- `newTarget = Math.max(0, size - dueTarget - inProgressTarget)`; since
`dueTarget ≤ size` and `inProgressTarget ≤ size - dueTarget`, truncated
`Nat` subtraction coincides with the `Math.max(0, ·)` clamp. -/
def newTargetOf (size : Nat) : Nat :=
  size - dueTargetOf size - inProgressTargetOf size

/-- `pushItem`'s mode assignment applied to the selection in push order:
each pushed item consumes one draw of the `pickRandom(MODES)` stream when
the configured mode is `mixed` (`k` counts the items pushed so far). -/
def assignModes (config : SessionConfig) (modeDraw : Nat → TrainingMode) :
    Nat → List (WordEntry × SessionOrigin) → List SessionItem
  | _, [] => []
  | k, (w, o) :: rest =>
      { id := w.id
        mode :=
          match config.mode with
          | .mixed => modeDraw k
          | .fixed m => m
        origin := o } :: assignModes config modeDraw (k + 1) rest

/-- The bucketed part of the selection: the first `dueTarget` of the sorted
due words, the first `inProgressTarget` of the sorted in-progress words and
the first `newTarget` new words (pool order), each tagged with its origin. -/
def baseSelection (words : List WordEntry) (config : SessionConfig) (now : Int) :
    List (WordEntry × SessionOrigin) :=
  ((dueSorted words config now).take (dueTargetOf config.size)).map
      (fun w => (w, SessionOrigin.due)) ++
    ((inProgressSorted words config now).take (inProgressTargetOf config.size)).map
      (fun w => (w, SessionOrigin.in_progress)) ++
    ((newBucket words config now).take (newTargetOf config.size)).map
      (fun w => (w, SessionOrigin.new))

/-- The backfill step of `buildSession`: if the bucketed selection is short
of `size`, top it up with not-yet-selected filtered words in pool order,
tagging new-status words `new` and the rest `in_progress`. -/
def backfilled (words : List WordEntry) (config : SessionConfig) (now : Int) :
    List (WordEntry × SessionOrigin) :=
  let sel := baseSelection words config now
  if sel.length < config.size then
    let remaining := (filterPool words config).filter
      (fun w => !(sel.any (fun s => s.1.id == w.id)))
    sel ++ (remaining.take (config.size - sel.length)).map
      (fun w => (w, if w.status == .new then SessionOrigin.new else SessionOrigin.in_progress))
  else sel

/-- The destructuring swap `[copy[i], copy[j]] = [copy[j], copy[i]]`. -/
def listSwap {α : Type _} (l : List α) (i j : Nat) : List α :=
  match l[i]?, l[j]? with
  | some a, some b => (l.set i b).set j a
  | _, _ => l

/-- The loop of `shuffle`: `for (i = length - 1; i > 0; i -= 1)` swapping
position `i` with position `draw i % (i + 1)`; reducing the draw modulo
`i + 1` models `Math.floor(Math.random() * (i + 1)) ∈ [0, i]`. -/
def fyLoop {α : Type _} (draw : Nat → Nat) : Nat → List α → List α
  | 0, l => l
  | i + 1, l => fyLoop draw i (listSwap l (i + 1) (draw (i + 1) % (i + 2)))

/-- `shuffle` from `App.tsx` (Fisher-Yates on a copy). -/
def shuffle {α : Type _} (draw : Nat → Nat) (l : List α) : List α :=
  fyLoop draw (l.length - 1) l

/-- `buildSession` from `App.tsx`: filter, bucket, sort, take the bucket
targets, backfill, assign training modes and shuffle.  `modeDraw` and
`shuffleDraw` are the injected random streams for `pickRandom(MODES)` and
the Fisher-Yates draws. -/
def buildSession (words : List WordEntry) (config : SessionConfig) (now : Int)
    (modeDraw : Nat → TrainingMode) (shuffleDraw : Nat → Nat) : List SessionItem :=
  shuffle shuffleDraw (assignModes config modeDraw 0 (backfilled words config now))

/-! ## Import (`handleImport` in `App.tsx` over the `db.ts` store) -/

/-- `Topic` from `types.ts`. -/
structure Topic where
  topicId : String
  name : String
  createdAt : Int
deriving DecidableEq, Repr

/-- The two IndexedDB object stores of `db.ts`, keyed by `topicId` and
`id` (`keyPath` upserts), modelled as partial maps. -/
structure Store where
  topics : String → Option Topic
  words : String → Option WordEntry

/-- `putTopic` from `db.ts`: upsert by `topicId`. -/
def putTopic (s : Store) (t : Topic) : Store :=
  { s with topics := fun k => if k = t.topicId then some t else s.topics k }

/-- `putWord` from `db.ts`: upsert by `id`. -/
def putWord (s : Store) (w : WordEntry) : Store :=
  { s with words := fun k => if k = w.id then some w else s.words k }

/-- `clearAll` from `db.ts`: both object stores cleared. -/
def clearAll (_ : Store) : Store :=
  { topics := fun _ => none, words := fun _ => none }

/-- `AppData` from `types.ts`: an import/export snapshot that parsed as
JSON with both arrays present. -/
structure AppData where
  schemaVersion : Int
  topics : List Topic
  words : List WordEntry

/-- `const SCHEMA_VERSION = 1` from `App.tsx`. -/
def SCHEMA_VERSION : Int := 1

/-- The in-memory state touched by `handleImport`: the persistent store
plus the `topics`/`words` React state. -/
structure AppState where
  store : Store
  topics : List Topic
  words : List WordEntry

/-- The import-mode selector of `App.tsx`. -/
inductive ImportMode where
  | merge
  | replace
deriving DecidableEq, Repr

/-- A JS `Map` built by repeated `set`, modelled as an association list:
`set` overwrites in place when the key exists (keeping insertion order,
as `Map` does) and appends otherwise. -/
def mapSet {α : Type _} (m : List (String × α)) (k : String) (v : α) : List (String × α) :=
  if m.any (fun p => p.1 == k) then
    m.map (fun p => if p.1 == k then (k, v) else p)
  else m ++ [(k, v)]

/-- `new Map(pairs)`: insert the pairs left to right. -/
def mapFromPairs {α : Type _} (pairs : List (String × α)) : List (String × α) :=
  pairs.foldl (fun m p => mapSet m p.1 p.2) []

/-- `handleImport` from `App.tsx`, applied to an already-parsed document
(in the source the `Array.isArray` checks precede the version check; a
typed `AppData` always has both arrays).  On a schema-version mismatch the
state is returned untouched; `replace` clears the store and writes the
snapshot verbatim; `merge` unions by id with existing records winning. -/
def handleImport (st : AppState) (parsed : AppData) (importMode : ImportMode) : AppState :=
  if parsed.schemaVersion ≠ SCHEMA_VERSION then st
  else
    match importMode with
    | .replace =>
        let store := clearAll st.store
        let store := parsed.topics.foldl putTopic store
        let store := parsed.words.foldl putWord store
        { store := store, topics := parsed.topics, words := parsed.words }
    | .merge =>
        let topicMap := mapFromPairs (parsed.topics.map (fun t => (t.topicId, t)))
        let wordMap := mapFromPairs (parsed.words.map (fun w => (w.id, w)))
        let topicMap := st.topics.foldl (fun m t => mapSet m t.topicId t) topicMap
        let wordMap := st.words.foldl (fun m w => mapSet m w.id w) wordMap
        let mergedTopics := topicMap.map Prod.snd
        let mergedWords := wordMap.map Prod.snd
        let store := mergedTopics.foldl putTopic st.store
        let store := mergedWords.foldl putWord store
        { store := store, topics := mergedTopics, words := mergedWords }

/-! ## Concrete sample states used as evaluation inputs -/

/-- A word whose ease factor is below the 1.3 floor; rating it `good`
leaves the ease untouched, exhibiting that `applyRating` does not restore
the floor on every rating. -/
def wordWithLowEase : WordEntry :=
  mkWord "low" .in_progress (some 0) 3 1 2 0

/-- Empty running-session statistics for a queue of the given length,
mirroring `emptyStats()`/`handleStartSession` in `App.tsx`. -/
def freshStats (total : Nat) (startedAt : Int) : SessionStats where
  total := total
  answered := 0
  correct := 0
  dueDone := 0
  newIntroduced := 0
  movedCompleted := 0
  lapses := 0
  startedAt := startedAt
  finishedAt := none

/-- Sample in-progress word used to exercise the reinsertion path. -/
def c5Word : WordEntry := mkWord "c5w" .in_progress (some 0) 1 2.5 1 0

/-- Session item for `c5Word`. -/
def c5Item : SessionItem := { id := "c5w", mode := .flashcards, origin := .due }

/-- A freshly started one-item session holding `c5Item`. -/
def c5State : SessionState where
  words := [c5Word]
  sessionQueue := [c5Item]
  sessionIndex := 0
  sessionStats := freshStats 1 0
  sessionAttempts := []
  sessionSeen := []

/-- Sample new word used to exercise the finished-session path. -/
def c6Word : WordEntry := mkWord "c6w" .new none 0 2.5 0 0

/-- Session item for `c6Word`. -/
def c6Item : SessionItem := { id := "c6w", mode := .flashcards, origin := .new }

/-- A freshly started one-item session holding `c6Item`. -/
def c6Start : SessionState where
  words := [c6Word]
  sessionQueue := [c6Item]
  sessionIndex := 0
  sessionStats := freshStats 1 0
  sessionAttempts := []
  sessionSeen := []

/-- The state after rating the single item of `c6Start` with `good`: the
queue is exhausted, so `finishedAt` is stamped — a finished session. -/
def c6Finished : SessionState := handleRating c6Start .good none 1000 0

/-- Two-word pool with distinct ids for exercising `buildSession`. -/
def c7Pool : List WordEntry :=
  [mkWord "a" .new none 0 2.5 0 0, mkWord "b" .in_progress (some 0) 1 2.5 1 0]

/-- Size-3 all-topics configuration. -/
def c7Config : SessionConfig :=
  { size := 3, mode := .mixed, topicId := "all", tags := [] }

/-- Pool with 6 due in-progress words, 10 not-due in-progress words and
20 new words (distinct ids), the spec's bucket-target example. -/
def c8Pool : List WordEntry :=
  ((List.range 6).map (fun i => mkWord ("due" ++ toString i) .in_progress (some 0) 1 2.5 1 0)) ++
    ((List.range 10).map
      (fun i => mkWord ("prog" ++ toString i) .in_progress (some 1000000) 1 2.5 1 0)) ++
    ((List.range 20).map (fun i => mkWord ("fresh" ++ toString i) .new none 0 2.5 0 0))

/-- Size-10 all-topics configuration with a fixed mode. -/
def c8Config : SessionConfig :=
  { size := 10, mode := .fixed .flashcards, topicId := "all", tags := [] }

/-- A sample topic for import snapshots. -/
def sampleTopic : Topic := { topicId := "t1", name := "Basics", createdAt := 0 }

/-- A valid (schema version 1) snapshot with one topic and one word. -/
def sampleSnapshot : AppData :=
  { schemaVersion := 1
    topics := [sampleTopic]
    words := [mkWord "w1" .new none 0 2.5 0 0] }

/-- The empty app state: empty store and empty in-memory lists. -/
def emptyAppState : AppState :=
  { store := { topics := fun _ => none, words := fun _ => none }
    topics := []
    words := [] }

/-! ## Claims about the Rating Engine (`srs.ts`) -/

/-- C1 counterexample: the claim quantifies over *any* `easeFactor`, but a
`good` rating leaves an ease of `1 < 1.3` unchanged, so
`applyRating(w, good, t).easeFactor ≥ 1.3` fails at this input. -/
theorem applyRating_ease_floor_counterexample :
    ¬ ((1.3 : Rat) ≤ (applyRating wordWithLowEase .good 0).ease) := by
  have h : (applyRating wordWithLowEase .good 0).ease = 1 := rfl
  rw [h]
  norm_num

/-- C1 (amended): for every word state whose ease factor already satisfies
the `≥ 1.3` invariant, every rating `r` and every time `t`, the word
returned by `applyRating w r t` has `easeFactor ≥ 1.3`; the floor is
preserved (`again`/`hard` clamp with `max`, `good` leaves the ease
unchanged, `easy` increases it). -/
theorem applyRating_ease_floor (w : WordEntry) (r : Rating) (t : Int)
    (h : (1.3 : Rat) ≤ w.ease) : (1.3 : Rat) ≤ (applyRating w r t).ease := by
  cases r
  · simp [applyRating, MIN_EASE]
  · simp [applyRating, MIN_EASE]
  · simpa [applyRating] using h
  · simp only [applyRating]
    calc (1.3 : Rat) ≤ w.ease := h
    _ ≤ w.ease + 0.1 := by norm_num

/-- C1 witness: the amended claim applied to a concrete word with ease
`2.5`. -/
theorem applyRating_ease_floor_witness :
    (1.3 : Rat) ≤ (mkWord "w" .new none 0 2.5 0 0).ease ∧
      (1.3 : Rat) ≤ (applyRating (mkWord "w" .new none 0 2.5 0 0) .easy 7).ease :=
  ⟨by norm_num [mkWord], applyRating_ease_floor _ .easy 7 (by norm_num [mkWord])⟩

/-- C2: rating any word `again` at time `t` resets `reps` to 0 and
`intervalDays` to 0, increments `lapses`, drops the ease by 0.2 with a 1.3
floor, schedules the next review 10 minutes after `t`, and stamps
`lastReviewedAt`/`updatedAt` with `t`, regardless of the prior state. -/
theorem applyRating_again_spec (w : WordEntry) (t : Int) :
    (applyRating w .again t).reps = 0 ∧
    (applyRating w .again t).intervalDays = 0 ∧
    (applyRating w .again t).lapses = w.lapses + 1 ∧
    (applyRating w .again t).ease = max (1.3 : Rat) (w.ease - 0.2) ∧
    (applyRating w .again t).dueAt = some (t + 10 * 60 * 1000) ∧
    (applyRating w .again t).lastReviewedAt = some t ∧
    (applyRating w .again t).updatedAt = t :=
  ⟨rfl, rfl, rfl, rfl, rfl, rfl, rfl⟩

/-- C3: the status of the rated word is computed from the *updated*
`reps`/`intervalDays` and the *pre-update* status, by the four rules of
`resolveStatus` in order: completed-and-again demotes to in-progress, else
`reps ≥ 5 ∧ intervalDays ≥ 21` completes, else a new word moves to
in-progress, else the status is unchanged. -/
theorem applyRating_status_spec (w : WordEntry) (r : Rating) (t : Int) :
    (applyRating w r t).status =
      (if w.status = .completed ∧ r = .again then WordStatus.in_progress
       else if (applyRating w r t).reps ≥ 5 ∧ (applyRating w r t).intervalDays ≥ 21 then
         WordStatus.completed
       else if w.status = .new then WordStatus.in_progress
       else w.status) := by
  cases r <;> rfl

/-- C4: on a `good` rating the interval becomes 1 for `reps = 0`, 3 for
`reps = 1`, and `round(intervalDays × ease)` otherwise (i.e. `reps ≥ 2`);
the next review is scheduled `intervalDays` days after `t` and `reps` is
incremented. -/
theorem applyRating_good_spec (w : WordEntry) (t : Int) :
    (applyRating w .good t).intervalDays =
      (if w.reps = 0 then 1
       else if w.reps = 1 then 3
       else round ((w.intervalDays : Rat) * w.ease)) ∧
    (applyRating w .good t).dueAt = some (addDays t (applyRating w .good t).intervalDays) ∧
    (applyRating w .good t).reps = w.reps + 1 :=
  ⟨rfl, rfl, rfl⟩

/-- Evaluation of `isDue` on a word with a present `dueAt` timestamp. -/
theorem isDue_eq_of_dueAt (w : WordEntry) (u d : Int) (h : w.dueAt = some d) :
    (isDue w u = true) ↔ d ≤ u := by
  simp [isDue, h]

/-- C10: every rating leaves a scheduled `dueAt` timestamp, so a rated
word is never again "due by absence": `isDue` on the result is decided
purely by comparing the scheduled timestamp with the query time. -/
theorem applyRating_dueAt_scheduled (w : WordEntry) (r : Rating) (t u : Int) :
    ∃ d : Int, (applyRating w r t).dueAt = some d ∧
      ((isDue (applyRating w r t) u = true) ↔ d ≤ u) := by
  cases r <;> exact ⟨_, rfl, isDue_eq_of_dueAt _ u _ rfl⟩

/-! ## Claims about the Session Runtime (`App.tsx`) -/

/-- `applyRating` never changes the word id. -/
theorem applyRating_id (w : WordEntry) (r : Rating) (t : Int) :
    (applyRating w r t).id = w.id := by
  cases r <;> rfl

/-- The full `handleRating` word update never changes the word id. -/
theorem updatedWordAfterRating_id (w : WordEntry) (r : Rating) (ma : Option String)
    (now : Int) (b : Bool) : (updatedWordAfterRating w r ma now b).id = w.id := by
  unfold updatedWordAfterRating
  split_ifs <;> simp [applyRating_id]

/-- `advanceSession` never touches the queue. -/
theorem advanceSession_sessionQueue (L : Nat) (s : SessionState) (now : Int) :
    (advanceSession L s now).sessionQueue = s.sessionQueue := by
  simp only [advanceSession]
  split <;> rfl

/-- `advanceSession` never touches the word collection. -/
theorem advanceSession_words (L : Nat) (s : SessionState) (now : Int) :
    (advanceSession L s now).words = s.words := by
  simp only [advanceSession]
  split <;> rfl

/-- Replacing every word with id `x.id` by `x` makes `findWord` return `x`,
provided some word with that id is present. -/
theorem findWord_map_replace (l : List WordEntry) (x : WordEntry)
    (h : ∃ w ∈ l, w.id = x.id) :
    findWord (l.map (fun v => if v.id == x.id then x else v)) x.id = some x := by
  simp only [findWord] at *
  induction l with
  | nil => rcases h with ⟨w, hw, _⟩; cases hw
  | cons a l ih =>
    simp only [List.map_cons]
    by_cases ha : (a.id == x.id) = true
    · rw [if_pos ha, List.find?_cons_of_pos]
      exact beq_self_eq_true x.id
    · rw [if_neg ha, List.find?_cons_of_neg]
      · apply ih
        rcases h with ⟨w, hw, hw2⟩
        rcases List.mem_cons.mp hw with rfl | hw3
        · exact absurd (beq_iff_eq.mpr hw2) ha
        · exact ⟨w, hw3, hw2⟩
      · simpa using ha

/-- `dueAt` of the word `findWord` returns after a replace-by-id map. -/
theorem findWord_map_replace_dueAt (l : List WordEntry) (x : WordEntry) (qid : String)
    (hq : x.id = qid) (h : ∃ w ∈ l, w.id = x.id) :
    (findWord (l.map (fun v => if v.id == x.id then x else v)) qid).map WordEntry.dueAt
      = some x.dueAt := by
  subst hq
  rw [findWord_map_replace l x h]
  rfl

/-- C5: in a running session with a current item and word, rating `again`
with per-session attempt count (after incrementing) 1 or 2 reinserts a
copy of the current item at `min(queue.length, index + offset)` where the
offset `5 + offsetDraw` ranges over `{5, 6, 7}`; when the count reaches 3
nothing is reinserted and the word's `dueAt` is overwritten with
`now + 24` hours before advancing. -/
theorem handleRating_again_reinsertion (st : SessionState) (item : SessionItem)
    (word : WordEntry) (ma : Option String) (now : Int) (d : Fin 3)
    (hItem : currentItem st = some item) (hWord : currentWord st = some word) :
    (((st.sessionAttempts.lookup word.id).getD 0 + 1 = 1 ∨
        (st.sessionAttempts.lookup word.id).getD 0 + 1 = 2) →
      (handleRating st .again ma now d).sessionQueue =
          st.sessionQueue.insertIdx
            (min st.sessionQueue.length (st.sessionIndex + (5 + (d : Nat)))) item ∧
        5 ≤ 5 + (d : Nat) ∧ 5 + (d : Nat) ≤ 7) ∧
    ((st.sessionAttempts.lookup word.id).getD 0 + 1 = 3 →
      (handleRating st .again ma now d).sessionQueue = st.sessionQueue ∧
        (findWord (handleRating st .again ma now d).words word.id).map WordEntry.dueAt
          = some (some (now + 24 * 60 * 60 * 1000))) := by
  have hd3 := d.isLt
  have hw : findWord st.words item.id = some word := by
    have h := hWord
    unfold currentWord at h
    rw [hItem] at h
    exact h
  have hmem : word ∈ st.words := List.mem_of_find?_eq_some hw
  constructor
  · intro h12
    have hcond : ¬ ((st.sessionAttempts.lookup word.id).getD 0 + 1 ≥ 3) := by
      rcases h12 with h | h <;> omega
    refine ⟨?_, by omega, by omega⟩
    simp only [handleRating, hItem, hWord]
    rw [if_neg hcond]
    simp [advanceSession_sessionQueue]
  · intro h3
    have hcond : (st.sessionAttempts.lookup word.id).getD 0 + 1 ≥ 3 := by omega
    simp only [handleRating, hItem, hWord]
    rw [if_pos hcond]
    have hq : (updatedWordAfterRating word .again ma now
        ((word.status == WordStatus.new) && !(st.sessionSeen.contains word.id))).id = word.id :=
      updatedWordAfterRating_id word .again ma now _
    constructor
    · simp [advanceSession_sessionQueue]
    · simp only [if_true]
      rw [advanceSession_words]
      dsimp only
      apply findWord_map_replace_dueAt _
        { updatedWordAfterRating word .again ma now
            ((word.status == WordStatus.new) && !(st.sessionSeen.contains word.id)) with
          dueAt := some (now + 24 * 60 * 60 * 1000), updatedAt := now }
        word.id
      · exact hq
      · refine ⟨_, List.mem_map_of_mem _ hmem, ?_⟩
        rw [if_pos (beq_iff_eq.mpr hq.symm)]

/-- C5 witness: in the concrete one-item session `c5State` the word has
not been rated `again` before, so the incremented attempt count is 1 and
the item is reinserted at `min(1, 0 + 5) = 1`. -/
theorem handleRating_again_reinsertion_witness :
    currentItem c5State = some c5Item ∧ currentWord c5State = some c5Word ∧
      ((c5State.sessionAttempts.lookup c5Word.id).getD 0 + 1 = 1 ∨
        (c5State.sessionAttempts.lookup c5Word.id).getD 0 + 1 = 2) ∧
      (handleRating c5State .again none 50 (0 : Fin 3)).sessionQueue =
        c5State.sessionQueue.insertIdx
          (min c5State.sessionQueue.length
            (c5State.sessionIndex + (5 + ((0 : Fin 3) : Nat)))) c5Item :=
  ⟨rfl, rfl, Or.inl rfl,
    ((handleRating_again_reinsertion c5State c5Item c5Word none 50 0 rfl rfl).1
        (Or.inl rfl)).1⟩

/-- C6: the code contradicts the claim.  `c6Finished` is a session whose
`finishedAt` is set (the single item was answered, exhausting the queue,
and the index still points at that item).  A further `handleRating` call
is not a no-op: it increments `stats.answered` to 2, overwrites
`finishedAt`, and re-rates the word (its `reps` moves from 1 to 2). -/
theorem handleRating_after_finished_mutates :
    c6Finished.sessionStats.finishedAt = some 1000 ∧
    c6Finished.sessionStats.answered = 1 ∧
    (findWord c6Finished.words "c6w").map WordEntry.reps = some 1 ∧
    (handleRating c6Finished .good none 2000 0).sessionStats.answered = 2 ∧
    (handleRating c6Finished .good none 2000 0).sessionStats.finishedAt = some 2000 ∧
    (findWord (handleRating c6Finished .good none 2000 0).words "c6w").map WordEntry.reps
      = some 2 :=
  ⟨rfl, rfl, rfl, rfl, rfl, rfl⟩

/-! ## Claims about the Session Builder (`buildSession`) -/

/-- Setting position `n` exchanges one occurrence of the old element for
the new one, stated additively to stay in `Nat`. -/
theorem count_set_add {α : Type _} [DecidableEq α] (l : List α) (n : Nat) (v a : α)
    (hn : n < l.length) :
    (l.set n v).count a + (if l[n] = a then 1 else 0)
      = l.count a + (if v = a then 1 else 0) := by
  induction l generalizing n with
  | nil => simp at hn
  | cons c t ih =>
    cases n with
    | zero =>
      simp only [List.set_cons_zero, List.getElem_cons_zero, List.count_cons]
      split_ifs <;> simp_all
    | succ m =>
      have hm : m < t.length := by simpa using hn
      have := ih m hm
      simp only [List.set_cons_succ, List.getElem_cons_succ, List.count_cons]
      split_ifs at this ⊢ <;> omega

/-- The destructuring swap permutes the list. -/
theorem listSwap_perm {α : Type _} [DecidableEq α] (l : List α) (i j : Nat) :
    (listSwap l i j).Perm l := by
  unfold listSwap
  split
  case _ a b hi hj =>
    obtain ⟨hi2, hia⟩ := List.getElem?_eq_some.mp hi
    obtain ⟨hj2, hjb⟩ := List.getElem?_eq_some.mp hj
    rw [List.perm_iff_count]
    intro x
    have hj3 : j < (l.set i b).length := by simpa using hj2
    have h1 := count_set_add l i b x hi2
    have h2 := count_set_add (l.set i b) j a x hj3
    have hval : (l.set i b)[j] = b := by
      by_cases hij : i = j
      · subst hij
        simp [List.getElem_set_self]
      · rw [List.getElem_set_ne hij]
        exact hjb
    rw [hval] at h2
    rw [hia] at h1
    split_ifs at h1 h2 ⊢ <;> omega
  case _ =>
    exact List.Perm.refl l

/-- The Fisher-Yates loop permutes the list. -/
theorem fyLoop_perm {α : Type _} [DecidableEq α] (draw : Nat → Nat) :
    ∀ (n : Nat) (l : List α), (fyLoop draw n l).Perm l := by
  intro n
  induction n with
  | zero => intro l; exact List.Perm.refl l
  | succ i ih =>
    intro l
    exact (ih _).trans (listSwap_perm l (i + 1) (draw (i + 1) % (i + 2)))

/-- `shuffle` returns a permutation of its input for every draw stream. -/
theorem shuffle_perm {α : Type _} [DecidableEq α] (draw : Nat → Nat) (l : List α) :
    (shuffle draw l).Perm l :=
  fyLoop_perm draw (l.length - 1) l

/-- Mode assignment keeps the selection length. -/
theorem assignModes_length (c : SessionConfig) (md : Nat → TrainingMode) :
    ∀ (k : Nat) (l : List (WordEntry × SessionOrigin)),
      (assignModes c md k l).length = l.length := by
  intro k l
  induction l generalizing k with
  | nil => rfl
  | cons p rest ih => simp [assignModes, ih]

/-- Mode assignment keeps each origin tag, hence origin counts. -/
theorem assignModes_countP (c : SessionConfig) (md : Nat → TrainingMode) (o : SessionOrigin) :
    ∀ (k : Nat) (l : List (WordEntry × SessionOrigin)),
      (assignModes c md k l).countP (fun it => it.origin == o)
        = l.countP (fun p => p.2 == o) := by
  intro k l
  induction l generalizing k with
  | nil => rfl
  | cons p rest ih =>
    obtain ⟨w, o2⟩ := p
    simp only [assignModes, List.countP_cons, ih]

/-- Counting the elements of a duplicate-free list that belong to a
duplicate-free sublist of it yields that sublist's length. -/
theorem countP_mem_of_nodup (S : List String) :
    ∀ (L : List String), L.Nodup → S.Nodup → (∀ s ∈ S, s ∈ L) →
      L.countP (fun a => decide (a ∈ S)) = S.length := by
  induction S with
  | nil => intro L _ _ _; simp
  | cons s S ih =>
    intro L hL hS hsub
    have hsL : s ∈ L := hsub s (List.mem_cons_self s S)
    have hperm : L.Perm (s :: L.erase s) := List.perm_cons_erase hsL
    rw [List.Perm.countP_eq _ hperm, List.countP_cons]
    have hsS : s ∉ S := (List.nodup_cons.mp hS).1
    have hS2 : S.Nodup := (List.nodup_cons.mp hS).2
    have hL2 : (L.erase s).Nodup := hL.erase s
    have hcongr : (L.erase s).countP (fun a => decide (a ∈ s :: S))
        = (L.erase s).countP (fun a => decide (a ∈ S)) := by
      apply List.countP_congr
      intro a ha
      have hne : a ≠ s := ((List.Nodup.mem_erase_iff hL).mp ha).1
      simp [List.mem_cons, hne]
    have hsub2 : ∀ x ∈ S, x ∈ L.erase s := by
      intro x hx
      have hxs : x ≠ s := fun h => hsS (h ▸ hx)
      exact (List.Nodup.mem_erase_iff hL).mpr ⟨hxs, hsub x (List.mem_cons_of_mem s hx)⟩
    rw [hcongr, ih (L.erase s) hL2 hS2 hsub2]
    simp

/-- Members of a prefix of the sorted due bucket are due-bucket members. -/
theorem mem_take_dueSorted {w : WordEntry} {words : List WordEntry} {config : SessionConfig}
    {now : Int} {n : Nat} (h : w ∈ (dueSorted words config now).take n) :
    w ∈ dueBucket words config now :=
  ((List.mergeSort_perm _ _).mem_iff).mp ((List.take_sublist _ _).subset h)

/-- Members of a prefix of the sorted in-progress bucket are in-progress
bucket members. -/
theorem mem_take_inProgressSorted {w : WordEntry} {words : List WordEntry}
    {config : SessionConfig} {now : Int} {n : Nat}
    (h : w ∈ (inProgressSorted words config now).take n) :
    w ∈ inProgressBucket words config now :=
  ((List.mergeSort_perm _ _).mem_iff).mp ((List.take_sublist _ _).subset h)

/-- Every selected pair's word comes from the filtered pool. -/
theorem baseSelection_mem_filterPool (words : List WordEntry) (config : SessionConfig)
    (now : Int) : ∀ p ∈ baseSelection words config now, p.1 ∈ filterPool words config := by
  intro p hp
  simp only [baseSelection, List.mem_append, List.mem_map] at hp
  rcases hp with (⟨w, hw, rfl⟩ | ⟨w, hw, rfl⟩) | ⟨w, hw, rfl⟩
  · exact (List.filter_sublist _).subset (mem_take_dueSorted hw)
  · exact (List.filter_sublist _).subset (mem_take_inProgressSorted hw)
  · exact (List.filter_sublist _).subset ((List.take_sublist _ _).subset hw)

/-- When the filtered pool has duplicate-free ids, so has the bucketed
selection: the three buckets are disjoint by their predicates and each is
duplicate-free. -/
theorem baseSelection_ids_nodup (words : List WordEntry) (config : SessionConfig) (now : Int)
    (hN : ((filterPool words config).map WordEntry.id).Nodup) :
    ((baseSelection words config now).map (fun p => p.1.id)).Nodup := by
  have hinj := List.inj_on_of_nodup_map hN
  have hdueN : ((dueBucket words config now).map WordEntry.id).Nodup :=
    ((List.filter_sublist _).map WordEntry.id).nodup hN
  have hipN : ((inProgressBucket words config now).map WordEntry.id).Nodup :=
    ((List.filter_sublist _).map WordEntry.id).nodup hN
  have hnewN : ((newBucket words config now).map WordEntry.id).Nodup :=
    ((List.filter_sublist _).map WordEntry.id).nodup hN
  have hA : (((dueSorted words config now).take (dueTargetOf config.size)).map
      WordEntry.id).Nodup :=
    ((List.take_sublist _ _).map _).nodup
      (((List.mergeSort_perm _ _).map WordEntry.id).nodup_iff.mpr hdueN)
  have hB : (((inProgressSorted words config now).take (inProgressTargetOf config.size)).map
      WordEntry.id).Nodup :=
    ((List.take_sublist _ _).map _).nodup
      (((List.mergeSort_perm _ _).map WordEntry.id).nodup_iff.mpr hipN)
  have hC : (((newBucket words config now).take (newTargetOf config.size)).map
      WordEntry.id).Nodup :=
    ((List.take_sublist _ _).map _).nodup hnewN
  have hdue_not_ip : ∀ w1 ∈ dueBucket words config now,
      ∀ w2 ∈ inProgressBucket words config now, w1.id ≠ w2.id := by
    intro w1 h1 w2 h2 hid
    obtain ⟨hm1, hp1⟩ := List.mem_filter.mp h1
    obtain ⟨hm2, hp2⟩ := List.mem_filter.mp h2
    have heq : w1 = w2 := hinj hm1 hm2 hid
    subst heq
    simp only [Bool.and_eq_true, Bool.not_eq_true'] at hp1 hp2
    rw [hp1.2] at hp2
    simp at hp2
  have hdue_not_new : ∀ w1 ∈ dueBucket words config now,
      ∀ w2 ∈ newBucket words config now, w1.id ≠ w2.id := by
    intro w1 h1 w2 h2 hid
    obtain ⟨hm1, hp1⟩ := List.mem_filter.mp h1
    obtain ⟨hm2, hp2⟩ := List.mem_filter.mp h2
    have heq : w1 = w2 := hinj hm1 hm2 hid
    subst heq
    simp only [Bool.and_eq_true, Bool.not_eq_true'] at hp1
    rw [hp1.1] at hp2
    simp at hp2
  have hip_not_new : ∀ w1 ∈ inProgressBucket words config now,
      ∀ w2 ∈ newBucket words config now, w1.id ≠ w2.id := by
    intro w1 h1 w2 h2 hid
    obtain ⟨hm1, hp1⟩ := List.mem_filter.mp h1
    obtain ⟨hm2, hp2⟩ := List.mem_filter.mp h2
    have heq : w1 = w2 := hinj hm1 hm2 hid
    subst heq
    simp only [Bool.and_eq_true, beq_iff_eq] at hp1 hp2
    rw [hp1.1] at hp2
    exact WordStatus.noConfusion hp2
  simp only [baseSelection, List.map_append, List.map_map]
  rw [List.nodup_append, List.nodup_append]
  refine ⟨⟨?_, ?_, ?_⟩, ?_, ?_⟩
  · exact hA
  · exact hB
  · intro x hxA hxB
    simp only [List.mem_map, Function.comp] at hxA hxB
    rcases hxA with ⟨w1, hw1, rfl⟩
    rcases hxB with ⟨w2, hw2, h12⟩
    exact hdue_not_ip w1 (mem_take_dueSorted hw1) w2 (mem_take_inProgressSorted hw2) h12.symm
  · exact hC
  · intro x hxAB hxC
    simp only [List.mem_map, Function.comp] at hxC
    rcases hxC with ⟨w2, hw2, rfl⟩
    rcases List.mem_append.mp hxAB with hxA | hxB
    · simp only [List.mem_map, Function.comp] at hxA
      rcases hxA with ⟨w1, hw1, h12⟩
      exact hdue_not_new w1 (mem_take_dueSorted hw1) w2
        ((List.take_sublist _ _).subset hw2) h12
    · simp only [List.mem_map, Function.comp] at hxB
      rcases hxB with ⟨w1, hw1, h12⟩
      exact hip_not_new w1 (mem_take_inProgressSorted hw1) w2
        ((List.take_sublist _ _).subset hw2) h12

/-- Counting the complement predicate. -/
theorem countP_not_eq {α : Type _} (p : α → Bool) (l : List α) :
    l.countP (fun a => !(p a)) = l.length - l.countP p := by
  have h := List.length_eq_countP_add_countP p l
  have h2 : l.countP (fun a => decide (¬ p a = true)) = l.countP (fun a => !(p a)) :=
    List.countP_congr (fun x _ => by simp)
  omega

/-- The three bucket targets always add up to the session size. -/
theorem targets_sum (size : Nat) :
    dueTargetOf size + inProgressTargetOf size + newTargetOf size = size ∧
    dueTargetOf size ≤ size ∧ inProgressTargetOf size ≤ size - dueTargetOf size := by
  have h1 : dueTargetOf size ≤ size := Nat.min_le_left _ _
  have h2 : inProgressTargetOf size ≤ size - dueTargetOf size := Nat.min_le_left _ _
  refine ⟨?_, h1, h2⟩
  unfold newTargetOf
  omega

/-- Length of the bucketed selection: each segment takes at most its
target. -/
theorem baseSelection_length (words : List WordEntry) (config : SessionConfig) (now : Int) :
    (baseSelection words config now).length =
      min (dueTargetOf config.size) (dueBucket words config now).length +
        min (inProgressTargetOf config.size) (inProgressBucket words config now).length +
        min (newTargetOf config.size) (newBucket words config now).length := by
  simp only [baseSelection, List.length_append, List.length_map, List.length_take,
    dueSorted, inProgressSorted, List.length_mergeSort]

/-- With duplicate-free ids, the filtered-pool entries whose id occurs in
the bucketed selection are exactly as many as the selected pairs. -/
theorem baseSelection_count (words : List WordEntry) (config : SessionConfig) (now : Int)
    (hN : ((filterPool words config).map WordEntry.id).Nodup) :
    (filterPool words config).countP
        (fun w => (baseSelection words config now).any (fun s => s.1.id == w.id))
      = (baseSelection words config now).length := by
  have hselN := baseSelection_ids_nodup words config now hN
  have hsub : ∀ s ∈ (baseSelection words config now).map (fun p => p.1.id),
      s ∈ (filterPool words config).map WordEntry.id := by
    intro s hs
    rcases List.mem_map.mp hs with ⟨p, hp, rfl⟩
    exact List.mem_map.mpr ⟨p.1, baseSelection_mem_filterPool words config now p hp, rfl⟩
  have h1 : ∀ w ∈ filterPool words config,
      ((baseSelection words config now).any (fun s => s.1.id == w.id) = true
        ↔ decide (w.id ∈ (baseSelection words config now).map (fun p => p.1.id)) = true) := by
    intro w _
    simp only [List.any_eq_true, beq_iff_eq, decide_eq_true_eq, List.mem_map]
  rw [List.countP_congr h1]
  have h2 : (filterPool words config).countP
      (fun w => decide (w.id ∈ (baseSelection words config now).map (fun p => p.1.id)))
      = ((filterPool words config).map WordEntry.id).countP
        (fun a => decide (a ∈ (baseSelection words config now).map (fun p => p.1.id))) := by
    rw [List.countP_map]
    rfl
  rw [h2, countP_mem_of_nodup _ _ hN hselN hsub, List.length_map]

/-- C7: for every pool with duplicate-free word ids and every
configuration with positive size, the built queue's length is exactly
`min(config.size, |filtered pool|)` — never longer than `size`, shorter
only when the filtered pool cannot fill it — and the queue is empty
exactly when the filtered pool is empty. -/
theorem buildSession_length_spec (words : List WordEntry) (config : SessionConfig)
    (now : Int) (md : Nat → TrainingMode) (sd : Nat → Nat)
    (hN : (words.map WordEntry.id).Nodup) (hpos : 0 < config.size) :
    (buildSession words config now md sd).length
        = min config.size (filterPool words config).length ∧
      (buildSession words config now md sd = [] ↔ filterPool words config = []) := by
  have hNF : ((filterPool words config).map WordEntry.id).Nodup :=
    ((List.filter_sublist _).map WordEntry.id).nodup hN
  have hb : (buildSession words config now md sd).length
      = (backfilled words config now).length := by
    unfold buildSession
    rw [(shuffle_perm sd _).length_eq, assignModes_length]
  obtain ⟨hsum, hle1, hle2⟩ := targets_sum config.size
  have hSlen := baseSelection_length words config now
  have hcount := baseSelection_count words config now hNF
  have hS_le_F : (baseSelection words config now).length
      ≤ (filterPool words config).length := by
    rw [← hcount]
    exact List.countP_le_length _
  have hS_le_size : (baseSelection words config now).length ≤ config.size := by
    rw [hSlen]
    omega
  have hback : (backfilled words config now).length
      = min config.size (filterPool words config).length := by
    simp only [backfilled]
    by_cases hlt : (baseSelection words config now).length < config.size
    · rw [if_pos hlt]
      simp only [List.length_append, List.length_map, List.length_take]
      have hrem : ((filterPool words config).filter
          (fun w => !((baseSelection words config now).any (fun s => s.1.id == w.id)))).length
          = (filterPool words config).length - (baseSelection words config now).length := by
        rw [← List.countP_eq_length_filter, countP_not_eq, hcount]
      rw [hrem]
      omega
    · rw [if_neg hlt]
      omega
  constructor
  · rw [hb, hback]
  · rw [← List.length_eq_zero, hb, hback]
    constructor
    · intro h
      have hF : (filterPool words config).length = 0 := by omega
      exact List.length_eq_zero.mp hF
    · intro h
      simp [h]

/-- C7 witness: a two-word pool with distinct ids and a size-3 config; the
queue length is `min 3 2 = 2`. -/
theorem buildSession_length_spec_witness :
    (c7Pool.map WordEntry.id).Nodup ∧ 0 < c7Config.size ∧
      (buildSession c7Pool c7Config 100 (fun _ => .flashcards) (fun _ => 0)).length
        = min c7Config.size (filterPool c7Pool c7Config).length :=
  ⟨by decide, by decide,
    (buildSession_length_spec c7Pool c7Config 100 (fun _ => .flashcards) (fun _ => 0)
        (by decide) (by decide)).1⟩

/-- Counting one origin tag over a constant-origin tagged segment. -/
theorem countP_map_pair_origin (X : List WordEntry) (o o2 : SessionOrigin) :
    (X.map (fun w => (w, o2))).countP (fun p => p.2 == o)
      = if o2 = o then X.length else 0 := by
  rw [List.countP_map]
  by_cases h : o2 = o
  · subst h
    simp [Function.comp]
  · simp [Function.comp, h]

/-- C8: whenever each bucket holds at least its target, the built queue
contains exactly `dueTarget` due-origin, `inProgressTarget`
in-progress-origin and `newTarget` new-origin items, and its length is
exactly `config.size`. -/
theorem buildSession_bucket_counts (words : List WordEntry) (config : SessionConfig)
    (now : Int) (md : Nat → TrainingMode) (sd : Nat → Nat)
    (hD : dueTargetOf config.size ≤ (dueBucket words config now).length)
    (hI : inProgressTargetOf config.size ≤ (inProgressBucket words config now).length)
    (hNw : newTargetOf config.size ≤ (newBucket words config now).length) :
    ((buildSession words config now md sd).countP
        (fun it => it.origin == SessionOrigin.due) = dueTargetOf config.size) ∧
    ((buildSession words config now md sd).countP
        (fun it => it.origin == SessionOrigin.in_progress) = inProgressTargetOf config.size) ∧
    ((buildSession words config now md sd).countP
        (fun it => it.origin == SessionOrigin.new) = newTargetOf config.size) ∧
    (buildSession words config now md sd).length = config.size := by
  obtain ⟨hsum, hle1, hle2⟩ := targets_sum config.size
  have hSlen : (baseSelection words config now).length = config.size := by
    rw [baseSelection_length]
    omega
  have hbf : backfilled words config now = baseSelection words config now := by
    simp only [backfilled]
    rw [if_neg (by omega)]
  have hcount : ∀ o : SessionOrigin,
      (buildSession words config now md sd).countP (fun it => it.origin == o)
        = (baseSelection words config now).countP (fun p => p.2 == o) := by
    intro o
    unfold buildSession
    rw [List.Perm.countP_eq _ (shuffle_perm sd _), assignModes_countP, hbf]
  have l1 : ((dueSorted words config now).take (dueTargetOf config.size)).length
      = dueTargetOf config.size := by
    simp only [List.length_take, dueSorted, List.length_mergeSort]
    omega
  have l2 : ((inProgressSorted words config now).take (inProgressTargetOf config.size)).length
      = inProgressTargetOf config.size := by
    simp only [List.length_take, inProgressSorted, List.length_mergeSort]
    omega
  have l3 : ((newBucket words config now).take (newTargetOf config.size)).length
      = newTargetOf config.size := by
    simp only [List.length_take]
    omega
  have hseg : ∀ o : SessionOrigin,
      (baseSelection words config now).countP (fun p => p.2 == o) =
        (if SessionOrigin.due = o then dueTargetOf config.size else 0) +
          (if SessionOrigin.in_progress = o then inProgressTargetOf config.size else 0) +
          (if SessionOrigin.new = o then newTargetOf config.size else 0) := by
    intro o
    have hT1 := countP_map_pair_origin
      ((dueSorted words config now).take (dueTargetOf config.size)) o SessionOrigin.due
    have hT2 := countP_map_pair_origin
      ((inProgressSorted words config now).take (inProgressTargetOf config.size)) o
      SessionOrigin.in_progress
    have hT3 := countP_map_pair_origin
      ((newBucket words config now).take (newTargetOf config.size)) o SessionOrigin.new
    rw [l1] at hT1
    rw [l2] at hT2
    rw [l3] at hT3
    simp only [baseSelection, List.countP_append, hT1, hT2, hT3]
  refine ⟨?_, ?_, ?_, ?_⟩
  · rw [hcount, hseg]
    simp
  · rw [hcount, hseg]
    simp
  · rw [hcount, hseg]
    simp
  · unfold buildSession
    rw [(shuffle_perm sd _).length_eq, assignModes_length, hbf, hSlen]


/-- The spec's size-10 instance: `dueTarget = min(10, round(6)) = 6`. -/
theorem dueTargetOf_ten : dueTargetOf 10 = 6 := by
  norm_num [dueTargetOf, round_eq]
  decide

/-- `inProgressTarget = min(4, round(2.5)) = 3` at size 10. -/
theorem inProgressTargetOf_ten : inProgressTargetOf 10 = 3 := by
  norm_num [inProgressTargetOf, dueTargetOf, round_eq]
  decide

/-- `newTarget = max(0, 10 - 6 - 3) = 1` at size 10. -/
theorem newTargetOf_ten : newTargetOf 10 = 1 := by
  norm_num [newTargetOf, inProgressTargetOf, dueTargetOf, round_eq]
  decide

/-- C8 witness: on the 6/10/20 pool with size 10 the queue has exactly 6
due-origin, 3 in-progress-origin and 1 new-origin items, total 10. -/
theorem buildSession_bucket_counts_witness :
    dueTargetOf c8Config.size = 6 ∧ inProgressTargetOf c8Config.size = 3 ∧
      newTargetOf c8Config.size = 1 ∧
      (buildSession c8Pool c8Config 100 (fun _ => .flashcards) (fun n => n)).countP
          (fun it => it.origin == SessionOrigin.due) = dueTargetOf c8Config.size ∧
      (buildSession c8Pool c8Config 100 (fun _ => .flashcards) (fun n => n)).countP
          (fun it => it.origin == SessionOrigin.in_progress)
        = inProgressTargetOf c8Config.size ∧
      (buildSession c8Pool c8Config 100 (fun _ => .flashcards) (fun n => n)).countP
          (fun it => it.origin == SessionOrigin.new) = newTargetOf c8Config.size ∧
      (buildSession c8Pool c8Config 100 (fun _ => .flashcards) (fun n => n)).length
        = c8Config.size := by
  have hD : dueTargetOf c8Config.size ≤ (dueBucket c8Pool c8Config 100).length := by
    show dueTargetOf 10 ≤ (dueBucket c8Pool c8Config 100).length
    rw [dueTargetOf_ten]
    decide
  have hI : inProgressTargetOf c8Config.size
      ≤ (inProgressBucket c8Pool c8Config 100).length := by
    show inProgressTargetOf 10 ≤ (inProgressBucket c8Pool c8Config 100).length
    rw [inProgressTargetOf_ten]
    decide
  have hNw : newTargetOf c8Config.size ≤ (newBucket c8Pool c8Config 100).length := by
    show newTargetOf 10 ≤ (newBucket c8Pool c8Config 100).length
    rw [newTargetOf_ten]
    decide
  have h := buildSession_bucket_counts c8Pool c8Config 100 (fun _ => .flashcards)
    (fun n => n) hD hI hNw
  exact ⟨dueTargetOf_ten, inProgressTargetOf_ten, newTargetOf_ten,
    h.1, h.2.1, h.2.2.1, h.2.2.2⟩

/-! ## Claims about Import (`handleImport`) -/

/-- C9: importing the same valid (schema version 1) snapshot twice with
the `replace` policy is idempotent: the `replace` branch clears the store
and rebuilds it from the snapshot alone, so the second imported state
equals the first. -/
theorem handleImport_replace_idempotent (st : AppState) (parsed : AppData)
    (h : parsed.schemaVersion = 1) :
    handleImport (handleImport st parsed .replace) parsed .replace
      = handleImport st parsed .replace := by
  have hv : ¬ (parsed.schemaVersion ≠ SCHEMA_VERSION) := by simp [SCHEMA_VERSION, h]
  simp only [handleImport, if_neg hv, clearAll]

/-- C9 witness: re-importing a concrete snapshot into the empty state. -/
theorem handleImport_replace_idempotent_witness :
    sampleSnapshot.schemaVersion = 1 ∧
      handleImport (handleImport emptyAppState sampleSnapshot .replace) sampleSnapshot .replace
        = handleImport emptyAppState sampleSnapshot .replace :=
  ⟨rfl, handleImport_replace_idempotent emptyAppState sampleSnapshot rfl⟩

end MyDictionary
